import Mathlib

/-!
Shallow embedding of the waypoint coordinate system and lane-safety helpers
of `src/helpers.h` (CarND path-planning project).

C++ `double` arithmetic is idealised as real arithmetic (`ℝ`).  Where IEEE-754
special values (NaN, ±infinity) decide the behaviour of the source, the
embedding models them explicitly and the definition's doc string says how.
Vectors (`std::vector<double>`) become `List ℝ`; `v[i]` becomes `List.getD`
(out-of-bounds reads, undefined behaviour in C++, read the junk value `0`).
-/

namespace PathPlanning

/-- Embeds `distance` (helpers.h line 40): Euclidean distance between two
points, written exactly as the source squares the differences. -/
noncomputable def distance (x1 y1 x2 y2 : ℝ) : ℝ :=
  Real.sqrt ((x2 - x1) * (x2 - x1) + (y2 - y1) * (y2 - y1))

/-- Loop of `ClosestWaypoint` (helpers.h lines 50-58): scans the points left
in `pts` (the zipped `maps_x`/`maps_y` arrays), `i` being the index of the
head of `pts` in the original arrays, carrying the best distance
`closestLen` and best index `closestWaypoint` found so far.  Only a strictly
smaller distance updates the running minimum. -/
noncomputable def cwGo (x y : ℝ) : List (ℝ × ℝ) → ℕ → ℝ → ℕ → ℕ
  | [], _, _, closestWaypoint => closestWaypoint
  | p :: rest, i, closestLen, closestWaypoint =>
    if distance x y p.1 p.2 < closestLen then
      cwGo x y rest (i + 1) (distance x y p.1 p.2) i
    else
      cwGo x y rest (i + 1) closestLen closestWaypoint

/-- Embeds `ClosestWaypoint` (helpers.h lines 45-61).  The running minimum
starts at the literal `100000` ("large number"), exactly as in the source. -/
noncomputable def ClosestWaypoint (x y : ℝ) (maps_x maps_y : List ℝ) : ℕ :=
  cwGo x y (maps_x.zip maps_y) 0 100000 0

/-- Model of C's `atan2(y, x)` by quadrant, as real arithmetic.
`atan2(0, 0)` is `0`, matching the C library convention. -/
noncomputable def atan2 (y x : ℝ) : ℝ :=
  if 0 < x then Real.arctan (y / x)
  else if x < 0 ∧ 0 ≤ y then Real.arctan (y / x) + Real.pi
  else if x < 0 ∧ y < 0 then Real.arctan (y / x) - Real.pi
  else if x = 0 ∧ 0 < y then Real.pi / 2
  else if x = 0 ∧ y < 0 then -(Real.pi / 2)
  else 0

/-- Embeds `NextWaypoint` (helpers.h lines 64-84): takes the closest
waypoint and advances by one (wrapping to 0) when the heading from the
query point to it differs from `theta` by more than π/2. -/
noncomputable def NextWaypoint (x y theta : ℝ) (maps_x maps_y : List ℝ) : ℕ :=
  let closestWaypoint := ClosestWaypoint x y maps_x maps_y
  let map_x := maps_x.getD closestWaypoint 0
  let map_y := maps_y.getD closestWaypoint 0
  let heading := atan2 (map_y - y) (map_x - x)
  let angle := |theta - heading|
  let angle := min (2 * Real.pi - angle) angle
  if Real.pi / 2 < angle then
    if closestWaypoint + 1 = maps_x.length then 0 else closestWaypoint + 1
  else
    closestWaypoint

/-- Embeds `getFrenet` (helpers.h lines 87-129): Cartesian to Frenet.
`prev_wp = next_wp - 1`, wrapping to the last index when `next_wp = 0`;
the point is projected onto the segment `prev_wp → next_wp`; the sign of
`d` is fixed by comparing distances to the reference point
`(1000, 2000) - waypoint[prev_wp]`; `s` is the summed arc length of the
segments before `prev_wp` plus the length of the projection. -/
noncomputable def getFrenet (x y theta : ℝ) (maps_x maps_y : List ℝ) : ℝ × ℝ :=
  let next_wp := NextWaypoint x y theta maps_x maps_y
  let prev_wp := if next_wp = 0 then maps_x.length - 1 else next_wp - 1
  let n_x := maps_x.getD next_wp 0 - maps_x.getD prev_wp 0
  let n_y := maps_y.getD next_wp 0 - maps_y.getD prev_wp 0
  let x_x := x - maps_x.getD prev_wp 0
  let x_y := y - maps_y.getD prev_wp 0
  let proj_norm := (x_x * n_x + x_y * n_y) / (n_x * n_x + n_y * n_y)
  let proj_x := proj_norm * n_x
  let proj_y := proj_norm * n_y
  let frenet_d := distance x_x x_y proj_x proj_y
  let center_x := 1000 - maps_x.getD prev_wp 0
  let center_y := 2000 - maps_y.getD prev_wp 0
  let centerToPos := distance center_x center_y x_x x_y
  let centerToRef := distance center_x center_y proj_x proj_y
  let frenet_d := if centerToPos ≤ centerToRef then -frenet_d else frenet_d
  let frenet_s :=
    (Finset.range prev_wp).sum (fun i =>
      distance (maps_x.getD i 0) (maps_y.getD i 0)
        (maps_x.getD (i + 1) 0) (maps_y.getD (i + 1) 0)) +
    distance 0 0 proj_x proj_y
  (frenet_s, frenet_d)

/-- Loop of `getXY` (helpers.h line 137), shifted by one: the C++ loop runs
`prev_wp` from `-1`, incrementing while `s > maps_s[prev_wp+1]` and
`prev_wp < size-1`; here `j = prev_wp + 1` starts at `0` and the loop
returns the final `j` (so the final `prev_wp` is `j - 1`).  The C++ loop
condition reads `maps_s[j]` on every evaluation, including the failing one,
so the indices this scan reads from `maps_s` are exactly `0, 1, ..., j`. -/
noncomputable def getXY_scan (maps_s : List ℝ) (s : ℝ) (j : ℕ) : ℕ :=
  if h : maps_s.getD j 0 < s ∧ j < maps_s.length then getXY_scan maps_s s (j + 1)
  else j
termination_by maps_s.length - j
decreasing_by
  obtain ⟨h1, h2⟩ := h
  omega

/-- The `prev_wp` selected by `getXY`, as the source's C++ `int` (it can be
`-1` when the scan never advances). -/
noncomputable def getXY_prevWp (maps_s : List ℝ) (s : ℝ) : ℤ :=
  (getXY_scan maps_s s 0 : ℤ) - 1

/-- Signed indexing, modelling `std::vector<double>::operator[]` on a C++
`int` index: in bounds it is the element, out of bounds it is undefined
behaviour, modelled by the junk value `0`. -/
noncomputable def getI (l : List ℝ) (i : ℤ) : ℝ :=
  if 0 ≤ i then l.getD i.toNat 0 else 0

/-- Embeds `getXY` (helpers.h lines 132-157): Frenet to Cartesian.  The
segment start is `prev_wp` from the scan, `wp2 = (prev_wp+1) % size`; the
point advances from waypoint `prev_wp` along the segment heading by
`s - maps_s[prev_wp]` and then offsets by `d` along `heading - π/2`. -/
noncomputable def getXY (s d : ℝ) (maps_s maps_x maps_y : List ℝ) : ℝ × ℝ :=
  let prev_wp := getXY_prevWp maps_s s
  let wp2 := (prev_wp + 1) % (maps_x.length : ℤ)
  let heading := atan2 (getI maps_y wp2 - getI maps_y prev_wp)
    (getI maps_x wp2 - getI maps_x prev_wp)
  let seg_s := s - getI maps_s prev_wp
  let seg_x := getI maps_x prev_wp + seg_s * Real.cos heading
  let seg_y := getI maps_y prev_wp + seg_s * Real.sin heading
  let perp_heading := heading - Real.pi / 2
  (seg_x + d * Real.cos perp_heading, seg_y + d * Real.sin perp_heading)

/-- Embeds `getAbsSpeed` (helpers.h line 159). -/
noncomputable def getAbsSpeed (vx vy : ℝ) : ℝ :=
  Real.sqrt (vx * vx + vy * vy)

/-- One row of the `lane_sensor_fusion` JSON array: the source reads
`[i][1] = x`, `[i][2] = y`, `[i][3] = vx`, `[i][4] = vy` (field `[0]`, the
car id, is never read). -/
structure Obstacle where
  x : ℝ
  y : ℝ
  vx : ℝ
  vy : ℝ

/-- Embeds `getLaneInfo` (helpers.h lines 164-188): average scalar speed of
the obstacles in the lane together with their count, or `(25.0, 0.0)` when
the lane is empty.  The returned `vector<double> {avg, count}` is a pair. -/
noncomputable def getLaneInfo (lane_sensor_fusion : List Obstacle) : ℝ × ℝ :=
  let num_cars : ℝ := (lane_sensor_fusion.length : ℝ)
  if 0 < num_cars then
    ((lane_sensor_fusion.map (fun c => getAbsSpeed c.vx c.vy)).sum / num_cars,
      num_cars)
  else
    (25.0, 0.0)

/-- Embeds `cmpLaneConditions` (helpers.h lines 191-203): the two lane
summaries are `(avg_speed, count)` pairs (`lane[0]`, `lane[1]` in the
source); prefers the left lane exactly when the score is nonnegative. -/
noncomputable def cmpLaneConditions (left_lane right_lane : ℝ × ℝ) : Bool :=
  let left_score := left_lane.1 - right_lane.1 + right_lane.2 - left_lane.2
  if 0 ≤ left_score then true else false

/-- Embeds `getTheta` (helpers.h lines 206-215) under the real-arithmetic
idealisation: `acos` becomes `Real.arccos` (the division `vx/speed` always
lands in `[-1, 1]` when `speed = sqrt(vx²+vy²) ≠ 0`, so the idealisation is
exact there; `speed = 0` is the degenerate case `getThetaF` models). -/
noncomputable def getTheta (vx vy speed : ℝ) : ℝ :=
  if 0 ≤ vy then Real.arccos (vx / speed)
  else -1 * Real.arccos (vx / speed)

/-- IEEE-faithful model of `getTheta` (helpers.h lines 206-215).  `none`
models a NaN result: when `speed = 0` the C++ division `vx/speed` yields
NaN (for `vx = 0`) or ±infinity (for `vx ≠ 0`), and `acos` of any of those
is NaN; when the quotient is finite but outside `[-1, 1]`, `acos` raises a
domain error and returns NaN.  Otherwise the result is the finite real
value of the source expression. -/
noncomputable def getThetaF (vx vy speed : ℝ) : Option ℝ :=
  if speed = 0 then none
  else if -1 ≤ vx / speed ∧ vx / speed ≤ 1 then
    some (if 0 ≤ vy then Real.arccos (vx / speed)
      else -1 * Real.arccos (vx / speed))
  else none

/-- The constant `car_length` of `safeToChangeLane` (helpers.h line 223). -/
noncomputable def car_length : ℝ := 4.0

/-- The `safety_distance` of `safeToChangeLane` (helpers.h line 224):
`car_length + 5.0 + abs(22.3 - car_speed) * 1.0`. -/
noncomputable def safety_distance (car_speed : ℝ) : ℝ :=
  car_length + 5.0 + |22.3 - car_speed| * 1.0

/-- The time-to-collision test of `safeToChangeLane` (helpers.h lines
249-265): `time_to_collision = (distance ∓ car_length) / relative_speed`
(sign split on `distance >= 0`), dangerous exactly when it lies in
`[0, t]`.  When `relative_speed = 0` the C++ double division yields
±infinity (numerator ≠ 0) or NaN (numerator = 0); in every one of those
cases the window test `ttc >= 0 && ttc <= t` is false, so this model
returns `false` then, and real division otherwise. -/
noncomputable def ttcUnsafe (dist relative_speed t : ℝ) : Bool :=
  if relative_speed = 0 then false
  else
    let time_to_collision :=
      (if 0 ≤ dist then dist - car_length else dist + car_length) /
        relative_speed
    if 0 ≤ time_to_collision ∧ time_to_collision ≤ t then true else false

/-- Loop of `safeToChangeLane` (helpers.h lines 229-275) over the remaining
obstacles, carrying the `safe_to_change_lane` flag: an obstacle inside the
safety margin returns `false` immediately (the source's early `return`);
an obstacle whose time to collision falls within `[0, 3]` clears the flag
but the scan continues. -/
noncomputable def safeGo (car_s car_speed : ℝ) (maps_x maps_y : List ℝ) :
    List Obstacle → Bool → Bool
  | [], safe_to_change_lane => safe_to_change_lane
  | ob :: rest, safe_to_change_lane =>
    let v := getAbsSpeed ob.vx ob.vy
    let theta := getTheta ob.vx ob.vy v
    let frenet := getFrenet ob.x ob.y theta maps_x maps_y
    let dist := frenet.1 - car_s
    let relative_speed := car_speed - v
    if |dist| ≤ safety_distance car_speed then false
    else if ttcUnsafe dist relative_speed 3.0 then
      safeGo car_s car_speed maps_x maps_y rest false
    else
      safeGo car_s car_speed maps_x maps_y rest safe_to_change_lane

/-- Embeds `safeToChangeLane` (helpers.h lines 218-281).  The `delta_t`
parameter (default `3.0` in the source) is accepted but, exactly as in the
source, never read: the body uses the local constant `t = 3.0`. -/
noncomputable def safeToChangeLane (lane_sensor_fusion : List Obstacle)
    (car_s car_speed : ℝ) (maps_x maps_y : List ℝ) (delta_t : ℝ) : Bool :=
  safeGo car_s car_speed maps_x maps_y lane_sensor_fusion true

/-- Synthetic straight-line polyline from the spec's round-trip test:
x coordinates of four collinear, uniformly spaced waypoints. -/
noncomputable def X4 : List ℝ := [0, 10, 20, 30]

/-- Synthetic straight-line polyline: y coordinates (all on the x axis). -/
noncomputable def Y4 : List ℝ := [0, 0, 0, 0]

/-- Cumulative arc lengths of the synthetic straight-line polyline. -/
noncomputable def S4 : List ℝ := [0, 10, 20, 30]

/-! Helper lemmas -/

theorem safety_distance_eq (car_speed : ℝ) :
    safety_distance car_speed = 4.0 + 5.0 + |22.3 - car_speed| := by
  rw [safety_distance, car_length]
  norm_num

theorem ttcUnsafe_eq_true_iff (dist relative_speed t : ℝ) :
    ttcUnsafe dist relative_speed t = true ↔
      relative_speed ≠ 0 ∧
        0 ≤ (if 0 ≤ dist then dist - 4.0 else dist + 4.0) / relative_speed ∧
        (if 0 ≤ dist then dist - 4.0 else dist + 4.0) / relative_speed ≤ t := by
  rw [ttcUnsafe]
  by_cases hr : relative_speed = 0
  · simp [hr]
  · rw [if_neg hr]
    simp only [car_length]
    by_cases hw : 0 ≤ (if 0 ≤ dist then dist - 4.0 else dist + 4.0) / relative_speed ∧
        (if 0 ≤ dist then dist - 4.0 else dist + 4.0) / relative_speed ≤ t
    · simp [hw, hr]
    · simp [hw, hr]

theorem safeGo_false_iff (car_s car_speed : ℝ) (maps_x maps_y : List ℝ) :
    ∀ (l : List Obstacle) (b : Bool),
      safeGo car_s car_speed maps_x maps_y l b = false ↔
        b = false ∨ ∃ ob ∈ l,
          |(getFrenet ob.x ob.y
              (getTheta ob.vx ob.vy (getAbsSpeed ob.vx ob.vy)) maps_x maps_y).1 -
            car_s| ≤ safety_distance car_speed ∨
          ttcUnsafe
            ((getFrenet ob.x ob.y
                (getTheta ob.vx ob.vy (getAbsSpeed ob.vx ob.vy)) maps_x maps_y).1 -
              car_s)
            (car_speed - getAbsSpeed ob.vx ob.vy) 3.0 = true := by
  intro l
  induction l with
  | nil => intro b; simp [safeGo]
  | cons ob rest ih =>
    intro b
    rw [safeGo]
    by_cases hm : |(getFrenet ob.x ob.y
        (getTheta ob.vx ob.vy (getAbsSpeed ob.vx ob.vy)) maps_x maps_y).1 -
          car_s| ≤ safety_distance car_speed
    · rw [if_pos hm]
      constructor
      · intro _
        exact Or.inr ⟨ob, List.mem_cons_self ob rest, Or.inl hm⟩
      · intro _; rfl
    · rw [if_neg hm]
      by_cases ht : ttcUnsafe
          ((getFrenet ob.x ob.y
              (getTheta ob.vx ob.vy (getAbsSpeed ob.vx ob.vy)) maps_x maps_y).1 -
            car_s)
          (car_speed - getAbsSpeed ob.vx ob.vy) 3.0 = true
      · rw [if_pos ht, ih]
        constructor
        · intro _
          exact Or.inr ⟨ob, List.mem_cons_self ob rest, Or.inr ht⟩
        · intro _; exact Or.inl rfl
      · rw [if_neg ht, ih]
        constructor
        · rintro (hb | ⟨o, ho, hcase⟩)
          · exact Or.inl hb
          · exact Or.inr ⟨o, List.mem_cons_of_mem ob ho, hcase⟩
        · rintro (hb | ⟨o, ho, hcase⟩)
          · exact Or.inl hb
          · rcases List.mem_cons.mp ho with rfl | ho2
            · rcases hcase with hc | hc
              · exact absurd hc hm
              · exact absurd hc ht
            · exact Or.inr ⟨o, ho2, hcase⟩

/-! Claim theorems -/

/-- C1: safeToChangeLane returns false if and only if some obstacle either
has absolute relative longitudinal distance within the safety margin
4.0 + 5.0 + |22.3 − ego_speed|, or has a time-to-collision within [0, 3.0],
where ttc = (distance − 4.0)/relative_speed for distance ≥ 0 and
(distance + 4.0)/relative_speed otherwise, distance being the obstacle's
Frenet s minus ego s and relative_speed ego speed minus obstacle speed.
A zero relative speed makes the ttc undefined (±∞ or NaN on doubles),
which the spec stipulates counts as outside [0, 3.0]; hence the
relative-speed ≠ 0 conjunct on the ttc disjunct. -/
theorem safeToChangeLane_false_iff (obs : List Obstacle) (car_s car_speed : ℝ)
    (maps_x maps_y : List ℝ) (delta_t : ℝ) :
    safeToChangeLane obs car_s car_speed maps_x maps_y delta_t = false ↔
      ∃ ob ∈ obs,
        |(getFrenet ob.x ob.y
            (getTheta ob.vx ob.vy (getAbsSpeed ob.vx ob.vy)) maps_x maps_y).1 -
          car_s| ≤ 4.0 + 5.0 + |22.3 - car_speed| ∨
        (car_speed - getAbsSpeed ob.vx ob.vy ≠ 0 ∧
          0 ≤ (if 0 ≤ (getFrenet ob.x ob.y
                (getTheta ob.vx ob.vy (getAbsSpeed ob.vx ob.vy)) maps_x maps_y).1 -
                  car_s then
              (getFrenet ob.x ob.y
                (getTheta ob.vx ob.vy (getAbsSpeed ob.vx ob.vy)) maps_x maps_y).1 -
                car_s - 4.0
            else
              (getFrenet ob.x ob.y
                (getTheta ob.vx ob.vy (getAbsSpeed ob.vx ob.vy)) maps_x maps_y).1 -
                car_s + 4.0) / (car_speed - getAbsSpeed ob.vx ob.vy) ∧
          (if 0 ≤ (getFrenet ob.x ob.y
                (getTheta ob.vx ob.vy (getAbsSpeed ob.vx ob.vy)) maps_x maps_y).1 -
                  car_s then
              (getFrenet ob.x ob.y
                (getTheta ob.vx ob.vy (getAbsSpeed ob.vx ob.vy)) maps_x maps_y).1 -
                car_s - 4.0
            else
              (getFrenet ob.x ob.y
                (getTheta ob.vx ob.vy (getAbsSpeed ob.vx ob.vy)) maps_x maps_y).1 -
                car_s + 4.0) / (car_speed - getAbsSpeed ob.vx ob.vy) ≤ 3.0) := by
  rw [safeToChangeLane, safeGo_false_iff]
  simp only [Bool.true_eq_false, false_or]
  refine exists_congr fun ob => and_congr_right fun _ => or_congr ?_ ?_
  · rw [safety_distance_eq]
  · rw [ttcUnsafe_eq_true_iff]

/-- C9: the delta_t argument of safeToChangeLane has no influence on the
verdict; the horizon used internally is the constant 3.0 (the source
shadows the parameter with the local constant t = 3.0 and never reads
delta_t). -/
theorem safeToChangeLane_delta_t_irrelevant (obs : List Obstacle)
    (car_s car_speed : ℝ) (maps_x maps_y : List ℝ) (t1 t2 : ℝ) :
    safeToChangeLane obs car_s car_speed maps_x maps_y t1 =
      safeToChangeLane obs car_s car_speed maps_x maps_y t2 := rfl

/-- C4: an obstacle whose speed equals the ego speed (relative speed 0) and
whose relative distance exceeds the safety margin is treated as not
dangerous: prepending it to any obstacle list leaves the verdict of
safeToChangeLane unchanged (its undefined time-to-collision, ±∞ or NaN on
doubles, counts as outside the [0, 3.0] horizon, which ttcUnsafe models). -/
theorem safeToChangeLane_zero_relative_speed (ob : Obstacle)
    (car_s car_speed : ℝ) (maps_x maps_y : List ℝ) (delta_t : ℝ)
    (hv : getAbsSpeed ob.vx ob.vy = car_speed)
    (hfar : safety_distance car_speed <
      |(getFrenet ob.x ob.y
          (getTheta ob.vx ob.vy (getAbsSpeed ob.vx ob.vy)) maps_x maps_y).1 -
        car_s|) :
    ∀ rest : List Obstacle,
      safeToChangeLane (ob :: rest) car_s car_speed maps_x maps_y delta_t =
        safeToChangeLane rest car_s car_speed maps_x maps_y delta_t := by
  intro rest
  rw [safeToChangeLane, safeToChangeLane, safeGo]
  rw [if_neg (not_le.mpr hfar)]
  have hz : ttcUnsafe
      ((getFrenet ob.x ob.y
          (getTheta ob.vx ob.vy (getAbsSpeed ob.vx ob.vy)) maps_x maps_y).1 -
        car_s)
      (car_speed - getAbsSpeed ob.vx ob.vy) 3.0 = false := by
    rw [hv, ttcUnsafe, if_pos (sub_self car_speed)]
  rw [hz]
  simp

/-- C3 (code evaluation at the failing input): for a zero-velocity obstacle
the heading derivation getTheta computes acos(0/0), which on IEEE doubles
is NaN (modelled by `none`), not a defined finite heading. -/
theorem getThetaF_zero_speed_nan : getThetaF 0 0 0 = none := by
  simp [getThetaF]

/-- C7: getLaneInfo on an empty obstacle list returns exactly (25.0, 0.0);
on a non-empty list it returns the arithmetic mean of the obstacles' scalar
speeds sqrt(vx²+vy²) together with the obstacle count; in particular on a
single obstacle with velocity (10, 0) it returns (10.0, 1.0). -/
theorem getLaneInfo_spec :
    getLaneInfo [] = (25.0, 0.0) ∧
    (∀ l : List Obstacle, l ≠ [] →
      getLaneInfo l =
        ((l.map (fun c => Real.sqrt (c.vx * c.vx + c.vy * c.vy))).sum /
            (l.length : ℝ),
          (l.length : ℝ))) ∧
    getLaneInfo [⟨0, 0, 10, 0⟩] = (10.0, 1.0) := by
  have hmean : ∀ l : List Obstacle, l ≠ [] →
      getLaneInfo l =
        ((l.map (fun c => Real.sqrt (c.vx * c.vx + c.vy * c.vy))).sum /
            (l.length : ℝ),
          (l.length : ℝ)) := by
    intro l hl
    have hpos : (0 : ℝ) < (l.length : ℝ) := by
      have : 0 < l.length := List.length_pos.mpr hl
      exact_mod_cast this
    rw [getLaneInfo]
    simp only [if_pos hpos, getAbsSpeed]
  refine ⟨by simp [getLaneInfo], hmean, ?_⟩
  rw [hmean [⟨0, 0, 10, 0⟩] (by simp)]
  have h10 : Real.sqrt ((10 : ℝ) * 10 + 0 * 0) = 10 := by
    rw [show ((10 : ℝ) * 10 + 0 * 0) = 10 * 10 by norm_num]
    exact Real.sqrt_mul_self (by norm_num)
  simp [h10]
  norm_num

/-- C7 witness: the non-empty branch of getLaneInfo_spec evaluated on the
single obstacle with velocity (10, 0). -/
theorem getLaneInfo_spec_witness :
    ([⟨0, 0, 10, 0⟩] : List Obstacle) ≠ [] ∧
    getLaneInfo [⟨0, 0, 10, 0⟩] =
      ((([⟨0, 0, 10, 0⟩] : List Obstacle).map
          (fun c => Real.sqrt (c.vx * c.vx + c.vy * c.vy))).sum /
          ((([⟨0, 0, 10, 0⟩] : List Obstacle).length : ℝ)),
        (([⟨0, 0, 10, 0⟩] : List Obstacle).length : ℝ)) :=
  ⟨by simp, getLaneInfo_spec.2.1 [⟨0, 0, 10, 0⟩] (by simp)⟩

/-- C8: cmpLaneConditions prefers the left lane exactly when
(left.avg_speed − right.avg_speed) + (right.count − left.count) ≥ 0;
in particular a score of exactly 0 favours left. -/
theorem cmpLaneConditions_true_iff (left_lane right_lane : ℝ × ℝ) :
    cmpLaneConditions left_lane right_lane = true ↔
      0 ≤ (left_lane.1 - right_lane.1) + (right_lane.2 - left_lane.2) := by
  rw [cmpLaneConditions]
  have h : left_lane.1 - right_lane.1 + right_lane.2 - left_lane.2 =
      (left_lane.1 - right_lane.1) + (right_lane.2 - left_lane.2) := by ring
  rw [h]
  by_cases hs : 0 ≤ (left_lane.1 - right_lane.1) + (right_lane.2 - left_lane.2)
  · simp [hs]
  · simp [hs]

theorem chainLt_getD (l : List ℝ) (h : List.Chain' (· < ·) l) :
    ∀ i j : ℕ, i < j → j < l.length → l.getD i 0 < l.getD j 0 := by
  intro i j hij hj
  have hp : l.Pairwise (· < ·) := List.chain'_iff_pairwise.mp h
  have hi : i < l.length := lt_trans hij hj
  rw [List.getD_eq_getElem l 0 hi, List.getD_eq_getElem l 0 hj]
  exact List.pairwise_iff_getElem.mp hp i j hi hj hij

theorem getXY_scan_spec (maps_s : List ℝ) (s : ℝ) :
    ∀ n j : ℕ, maps_s.length - j ≤ n →
      j ≤ getXY_scan maps_s s j ∧
      (j ≤ maps_s.length → getXY_scan maps_s s j ≤ maps_s.length) ∧
      (∀ i : ℕ, j ≤ i → i < getXY_scan maps_s s j → maps_s.getD i 0 < s) ∧
      (getXY_scan maps_s s j < maps_s.length →
        s ≤ maps_s.getD (getXY_scan maps_s s j) 0) := by
  intro n
  induction n with
  | zero =>
    intro j hj
    have hlen : maps_s.length ≤ j := by omega
    have hc : ¬(maps_s.getD j 0 < s ∧ j < maps_s.length) :=
      fun hcc => absurd hcc.2 (by omega)
    rw [getXY_scan, dif_neg hc]
    exact ⟨le_refl j, fun h => h, fun i h1 h2 => absurd h2 (by omega),
      fun h => absurd h (by omega)⟩
  | succ n ih =>
    intro j hj
    by_cases hc : maps_s.getD j 0 < s ∧ j < maps_s.length
    · rw [getXY_scan, dif_pos hc]
      obtain ⟨ih1, ih2, ih3, ih4⟩ := ih (j + 1) (by omega)
      refine ⟨by omega, fun _ => ih2 (by omega), ?_, ih4⟩
      intro i hji hi2
      rcases Nat.eq_or_lt_of_le hji with hji2 | hji2
      · rw [← hji2]; exact hc.1
      · exact ih3 i (by omega) hi2
    · rw [getXY_scan, dif_neg hc]
      refine ⟨le_refl j, fun h => h, fun i h1 h2 => absurd h2 (by omega), ?_⟩
      intro hjlen
      rcases not_and_or.mp hc with hc1 | hc2
      · exact not_lt.mp hc1
      · exact absurd hjlen hc2

/-- C2 counterexample: on the cumulative arc lengths [0, 10, 20] with the
query s = 10, which is exactly the arc length of waypoint 1, getXY selects
prev_wp = 0, not 1: the scan `while (s > maps_s[prev_wp+1])` stops strictly
before an index whose arc length equals s, contradicting the claim that a
tie selects that index. -/
theorem getXY_prevWp_tie_cx :
    ([0, 10, 20] : List ℝ).getD 1 0 = 10 ∧
      getXY_prevWp [0, 10, 20] 10 = 0 := by
  refine ⟨by simp, ?_⟩
  have h0 : getXY_scan [0, 10, 20] 10 0 = getXY_scan [0, 10, 20] 10 1 := by
    rw [getXY_scan]
    rw [dif_pos ⟨by norm_num, by norm_num⟩]
  have h1 : getXY_scan [0, 10, 20] 10 1 = 1 := by
    rw [getXY_scan]
    rw [dif_neg]
    rintro ⟨hlt, -⟩
    norm_num at hlt
  rw [getXY_prevWp, h0, h1]
  norm_num

/-- C2 as amended: for a strictly increasing cumulative arc-length sequence
and a query s with maps_s[0] < s ≤ maps_s[last], getXY selects as its
segment start the last waypoint index whose arc length is strictly less
than s (equivalently: k ≤ prev_wp iff maps_s[k] < s); in particular, when
s is exactly a waypoint's arc-length value maps_s[k], the selected index is
k − 1, not k. -/
theorem getXY_prevWp_spec (maps_s : List ℝ) (s : ℝ)
    (hmono : List.Chain' (· < ·) maps_s)
    (h0 : maps_s.getD 0 0 < s)
    (hlast : s ≤ maps_s.getD (maps_s.length - 1) 0) :
    (∀ k : ℕ, k < maps_s.length →
      (maps_s.getD k 0 < s ↔ (k : ℤ) ≤ getXY_prevWp maps_s s)) ∧
    (∀ k : ℕ, k < maps_s.length → maps_s.getD k 0 = s →
      getXY_prevWp maps_s s = (k : ℤ) - 1) := by
  obtain ⟨-, hle, hreads, hstop⟩ :=
    getXY_scan_spec maps_s s maps_s.length 0 (by omega)
  have hlen0 : 0 < maps_s.length := by
    by_contra he
    have : maps_s = [] := List.length_eq_zero.mp (by omega)
    rw [this] at h0 hlast
    simp at h0 hlast
    linarith
  have hne : getXY_scan maps_s s 0 ≠ maps_s.length := by
    intro he
    have : maps_s.getD (maps_s.length - 1) 0 < s :=
      hreads (maps_s.length - 1) (by omega) (by omega)
    linarith
  have hlt : getXY_scan maps_s s 0 < maps_s.length := by
    have := hle (by omega)
    omega
  have hstop2 : s ≤ maps_s.getD (getXY_scan maps_s s 0) 0 := hstop hlt
  have hpos : 0 < getXY_scan maps_s s 0 := by
    rcases Nat.eq_zero_or_pos (getXY_scan maps_s s 0) with he | hp
    · rw [he] at hstop2; linarith
    · exact hp
  have hmain : ∀ k : ℕ, k < maps_s.length →
      (maps_s.getD k 0 < s ↔ (k : ℤ) ≤ getXY_prevWp maps_s s) := by
    intro k hk
    rw [getXY_prevWp]
    constructor
    · intro hks
      by_contra hgt
      push_neg at hgt
      have hge : getXY_scan maps_s s 0 ≤ k := by omega
      have : s ≤ maps_s.getD k 0 := by
        rcases Nat.eq_or_lt_of_le hge with he | hlt2
        · rw [← he]; exact hstop2
        · exact le_of_lt
            (lt_of_le_of_lt hstop2 (chainLt_getD maps_s hmono _ k hlt2 hk))
      linarith
    · intro hkle
      have : k < getXY_scan maps_s s 0 := by omega
      exact hreads k (by omega) this
  refine ⟨hmain, ?_⟩
  intro k hk hks
  have h1 : ¬ ((k : ℤ) ≤ getXY_prevWp maps_s s) := by
    rw [← hmain k hk, hks]
    exact lt_irrefl s
  have hk0 : 0 < k := by
    by_contra hz
    have : k = 0 := by omega
    rw [this] at hks
    rw [hks] at h0
    exact lt_irrefl s h0
  have h2 : ((k : ℤ) - 1) ≤ getXY_prevWp maps_s s := by
    have hklt : maps_s.getD (k - 1) 0 < s := by
      rw [← hks]
      exact chainLt_getD maps_s hmono (k - 1) k (by omega) hk
    have := (hmain (k - 1) (by omega)).mp hklt
    omega
  omega

/-- C2 amended-theorem witness: maps_s = [0, 10, 20] with s = 10 satisfies
the hypotheses, and the characterisation of the selected index holds
there. -/
theorem getXY_prevWp_spec_witness :
    (List.Chain' (· < ·) ([0, 10, 20] : List ℝ) ∧
      ([0, 10, 20] : List ℝ).getD 0 0 < 10 ∧
      (10 : ℝ) ≤ ([0, 10, 20] : List ℝ).getD (([0, 10, 20] : List ℝ).length - 1) 0) ∧
    ((∀ k : ℕ, k < ([0, 10, 20] : List ℝ).length →
      (([0, 10, 20] : List ℝ).getD k 0 < 10 ↔
        (k : ℤ) ≤ getXY_prevWp [0, 10, 20] 10)) ∧
    (∀ k : ℕ, k < ([0, 10, 20] : List ℝ).length →
      ([0, 10, 20] : List ℝ).getD k 0 = 10 →
      getXY_prevWp [0, 10, 20] 10 = (k : ℤ) - 1)) :=
  ⟨⟨by norm_num [List.chain'_cons], by norm_num, by norm_num⟩,
    getXY_prevWp_spec [0, 10, 20] 10 (by norm_num [List.chain'_cons])
      (by norm_num) (by norm_num)⟩

/-- C10: with at least 2 waypoints, a strictly increasing maps_s and a
query maps_s[0] < s ≤ maps_s[last], every container index access getXY
performs is within bounds: the while loop reads maps_s at exactly the
indices 0..j for j = getXY_scan maps_s s 0, and the function body then
reads maps_s, maps_x and maps_y at prev_wp = j − 1 and at
wp2 = (prev_wp + 1) % size = j, so 1 ≤ j and j < size cover them all.
Outside that range of s the scan either leaves prev_wp at −1
(s ≤ maps_s[0]) or its final condition evaluation reads maps_s one past
the end (maps_s[last] < s makes j = size). -/
theorem getXY_accesses_inbounds (maps_s : List ℝ) (s : ℝ)
    (h2 : 2 ≤ maps_s.length)
    (hmono : List.Chain' (· < ·) maps_s) :
    (maps_s.getD 0 0 < s → s ≤ maps_s.getD (maps_s.length - 1) 0 →
      (∀ i : ℕ, i ≤ getXY_scan maps_s s 0 → i < maps_s.length) ∧
      0 ≤ getXY_prevWp maps_s s ∧
      getXY_prevWp maps_s s < (maps_s.length : ℤ) - 1) ∧
    (s ≤ maps_s.getD 0 0 → getXY_prevWp maps_s s = -1) ∧
    (maps_s.getD (maps_s.length - 1) 0 < s →
      getXY_scan maps_s s 0 = maps_s.length) := by
  refine ⟨?_, ?_, ?_⟩
  · intro h0 hlast
    obtain ⟨-, hle, hreads, hstop⟩ :=
      getXY_scan_spec maps_s s maps_s.length 0 (by omega)
    have hne : getXY_scan maps_s s 0 ≠ maps_s.length := by
      intro he
      have : maps_s.getD (maps_s.length - 1) 0 < s :=
        hreads (maps_s.length - 1) (by omega) (by omega)
      linarith
    have hlt : getXY_scan maps_s s 0 < maps_s.length := by
      have := hle (by omega)
      omega
    have hstop2 : s ≤ maps_s.getD (getXY_scan maps_s s 0) 0 := hstop hlt
    have hpos : 0 < getXY_scan maps_s s 0 := by
      rcases Nat.eq_zero_or_pos (getXY_scan maps_s s 0) with he | hp
      · rw [he] at hstop2; linarith
      · exact hp
    rw [getXY_prevWp]
    exact ⟨fun i hi => by omega, by omega, by omega⟩
  · intro hle0
    rw [getXY_prevWp, getXY_scan, dif_neg]
    · norm_num
    · rintro ⟨hlt, -⟩
      linarith
  · intro hlast
    obtain ⟨hge, hle, hreads, hstop⟩ :=
      getXY_scan_spec maps_s s maps_s.length 0 (by omega)
    by_contra hne
    have hlt : getXY_scan maps_s s 0 < maps_s.length := by
      have := hle (by omega)
      omega
    have hstop2 : s ≤ maps_s.getD (getXY_scan maps_s s 0) 0 := hstop hlt
    have : maps_s.getD (getXY_scan maps_s s 0) 0 ≤
        maps_s.getD (maps_s.length - 1) 0 := by
      rcases Nat.eq_or_lt_of_le (by omega :
          getXY_scan maps_s s 0 ≤ maps_s.length - 1) with he | hlt2
      · rw [he]
      · exact le_of_lt (chainLt_getD maps_s hmono _ _ hlt2 (by omega))
    linarith

/-- C10 witness: maps_s = [0, 10, 20] with s = 15 satisfies the hypotheses;
the in-bounds bundle holds there. -/
theorem getXY_accesses_inbounds_witness :
    (2 ≤ ([0, 10, 20] : List ℝ).length ∧
      List.Chain' (· < ·) ([0, 10, 20] : List ℝ)) ∧
    ((([0, 10, 20] : List ℝ).getD 0 0 < 15 →
      (15 : ℝ) ≤ ([0, 10, 20] : List ℝ).getD (([0, 10, 20] : List ℝ).length - 1) 0 →
      (∀ i : ℕ, i ≤ getXY_scan [0, 10, 20] 15 0 →
        i < ([0, 10, 20] : List ℝ).length) ∧
      0 ≤ getXY_prevWp [0, 10, 20] 15 ∧
      getXY_prevWp [0, 10, 20] 15 < (([0, 10, 20] : List ℝ).length : ℤ) - 1) ∧
    ((15 : ℝ) ≤ ([0, 10, 20] : List ℝ).getD 0 0 →
      getXY_prevWp [0, 10, 20] 15 = -1) ∧
    (([0, 10, 20] : List ℝ).getD (([0, 10, 20] : List ℝ).length - 1) 0 < 15 →
      getXY_scan [0, 10, 20] 15 0 = ([0, 10, 20] : List ℝ).length)) :=
  ⟨⟨by norm_num, by norm_num [List.chain'_cons]⟩,
    getXY_accesses_inbounds [0, 10, 20] 15 (by norm_num)
      (by norm_num [List.chain'_cons])⟩

theorem distance_eval (x1 y1 x2 y2 r : ℝ) (hr : 0 ≤ r)
    (h : (x2 - x1) * (x2 - x1) + (y2 - y1) * (y2 - y1) = r * r) :
    distance x1 y1 x2 y2 = r := by
  rw [distance, h, Real.sqrt_mul_self hr]

theorem cwGo_spec (x y : ℝ) :
    ∀ (pts : List (ℝ × ℝ)) (i : ℕ) (cl : ℝ) (cw : ℕ),
      ((∀ p ∈ pts, cl ≤ distance x y p.1 p.2) → cwGo x y pts i cl cw = cw) ∧
      ((∃ p ∈ pts, distance x y p.1 p.2 < cl) →
        ∃ k : ℕ, k < pts.length ∧ cwGo x y pts i cl cw = i + k ∧
          distance x y (pts.getD k (0, 0)).1 (pts.getD k (0, 0)).2 < cl ∧
          (∀ m : ℕ, m < pts.length →
            distance x y (pts.getD k (0, 0)).1 (pts.getD k (0, 0)).2 ≤
              distance x y (pts.getD m (0, 0)).1 (pts.getD m (0, 0)).2) ∧
          (∀ m : ℕ, m < k →
            distance x y (pts.getD k (0, 0)).1 (pts.getD k (0, 0)).2 <
              distance x y (pts.getD m (0, 0)).1 (pts.getD m (0, 0)).2)) := by
  intro pts
  induction pts with
  | nil =>
    intro i cl cw
    refine ⟨fun _ => rfl, ?_⟩
    rintro ⟨p, hp, -⟩
    exact absurd hp (List.not_mem_nil p)
  | cons p rest ih =>
    intro i cl cw
    constructor
    · intro hall
      rw [cwGo, if_neg (not_lt.mpr (hall p (List.mem_cons_self p rest)))]
      exact (ih (i + 1) cl cw).1 fun q hq => hall q (List.mem_cons_of_mem p hq)
    · intro hex
      by_cases hdp : distance x y p.1 p.2 < cl
      · rw [cwGo, if_pos hdp]
        by_cases hrest : ∃ q ∈ rest, distance x y q.1 q.2 < distance x y p.1 p.2
        · obtain ⟨k, hk, heq, hklt, hmin, hfirst⟩ :=
            (ih (i + 1) (distance x y p.1 p.2) i).2 hrest
          refine ⟨k + 1, by simpa using Nat.succ_lt_succ hk, ?_, ?_, ?_, ?_⟩
          · rw [heq]; omega
          · simpa using lt_trans hklt hdp
          · intro m hm
            cases m with
            | zero => simpa using le_of_lt hklt
            | succ m2 => simpa using hmin m2 (by simpa using Nat.lt_of_succ_lt_succ hm)
          · intro m hm
            cases m with
            | zero => simpa using hklt
            | succ m2 => simpa using hfirst m2 (Nat.lt_of_succ_lt_succ hm)
        · push_neg at hrest
          have hstop : cwGo x y rest (i + 1) (distance x y p.1 p.2) i = i :=
            (ih (i + 1) (distance x y p.1 p.2) i).1 hrest
          refine ⟨0, by simp, by simpa using hstop, by simpa using hdp, ?_, ?_⟩
          · intro m hm
            cases m with
            | zero => simp
            | succ m2 =>
              have hmem : rest.getD m2 (0, 0) ∈ rest := by
                have hm2 : m2 < rest.length := by simpa using Nat.lt_of_succ_lt_succ hm
                rw [List.getD_eq_getElem rest (0, 0) hm2]
                exact List.getElem_mem hm2
              simpa using hrest (rest.getD m2 (0, 0)) hmem
          · intro m hm
            exact absurd hm (Nat.not_lt_zero m)
      · rw [cwGo, if_neg hdp]
        have hex2 : ∃ q ∈ rest, distance x y q.1 q.2 < cl := by
          obtain ⟨q, hq, hqlt⟩ := hex
          rcases List.mem_cons.mp hq with rfl | hq2
          · exact absurd hqlt hdp
          · exact ⟨q, hq2, hqlt⟩
        obtain ⟨k, hk, heq, hklt, hmin, hfirst⟩ := (ih (i + 1) cl cw).2 hex2
        refine ⟨k + 1, by simpa using Nat.succ_lt_succ hk, ?_, ?_, ?_, ?_⟩
        · rw [heq]; omega
        · simpa using hklt
        · intro m hm
          cases m with
          | zero =>
            simpa using le_trans (le_of_lt hklt) (not_lt.mp hdp)
          | succ m2 => simpa using hmin m2 (by simpa using Nat.lt_of_succ_lt_succ hm)
        · intro m hm
          cases m with
          | zero => simpa using lt_of_lt_of_le hklt (not_lt.mp hdp)
          | succ m2 => simpa using hfirst m2 (Nat.lt_of_succ_lt_succ hm)

/-- C5 counterexample: with both waypoints farther than the scan's
initialiser 100000 (waypoints (0, 200000) and (0, 150000), query (0, 0)),
ClosestWaypoint returns 0 although waypoint 1 is strictly closer: no
distance is ever below the initial `closestLen = 100000`, so the scan never
updates and the claimed "index minimising the distance" is not returned. -/
theorem ClosestWaypoint_far_cx :
    ClosestWaypoint 0 0 [0, 0] [200000, 150000] = 0 ∧
      distance 0 0 0 150000 < distance 0 0 0 200000 := by
  have d1 : distance 0 0 0 200000 = 200000 :=
    distance_eval 0 0 0 200000 200000 (by norm_num) (by norm_num)
  have d2 : distance 0 0 0 150000 = 150000 :=
    distance_eval 0 0 0 150000 150000 (by norm_num) (by norm_num)
  constructor
  · rw [ClosestWaypoint]
    norm_num [cwGo, d1, d2]
  · rw [d1, d2]
    norm_num

/-- C5 as amended: for every polyline (the zipped waypoint lists) and query
point, provided at least one polyline point lies strictly within the
scan's initial distance 100000 of the query, ClosestWaypoint returns the
index of a point minimising the Euclidean distance, and every strictly
earlier index is strictly farther (ties are broken by the lowest index).
Without that proviso the scan never updates and returns 0 regardless. -/
theorem ClosestWaypoint_min (x y : ℝ) (maps_x maps_y : List ℝ)
    (hnear : ∃ p ∈ maps_x.zip maps_y, distance x y p.1 p.2 < 100000) :
    ClosestWaypoint x y maps_x maps_y < (maps_x.zip maps_y).length ∧
    (∀ m : ℕ, m < (maps_x.zip maps_y).length →
      distance x y
          ((maps_x.zip maps_y).getD (ClosestWaypoint x y maps_x maps_y) (0, 0)).1
          ((maps_x.zip maps_y).getD (ClosestWaypoint x y maps_x maps_y) (0, 0)).2 ≤
        distance x y ((maps_x.zip maps_y).getD m (0, 0)).1
          ((maps_x.zip maps_y).getD m (0, 0)).2) ∧
    (∀ m : ℕ, m < ClosestWaypoint x y maps_x maps_y →
      distance x y
          ((maps_x.zip maps_y).getD (ClosestWaypoint x y maps_x maps_y) (0, 0)).1
          ((maps_x.zip maps_y).getD (ClosestWaypoint x y maps_x maps_y) (0, 0)).2 <
        distance x y ((maps_x.zip maps_y).getD m (0, 0)).1
          ((maps_x.zip maps_y).getD m (0, 0)).2) := by
  obtain ⟨k, hk, heq, -, hmin, hfirst⟩ :=
    (cwGo_spec x y (maps_x.zip maps_y) 0 100000 0).2 hnear
  have hcw : ClosestWaypoint x y maps_x maps_y = k := by
    rw [ClosestWaypoint, heq]; omega
  rw [hcw]
  exact ⟨hk, hmin, hfirst⟩

/-- C5 amended-theorem witness: waypoints (0, 0) and (3, 4) with query
(0, 0); the first waypoint is at distance 0 < 100000 and the minimiser
properties hold. -/
theorem ClosestWaypoint_min_witness :
    (∃ p ∈ ([0, 3] : List ℝ).zip ([0, 4] : List ℝ),
      distance 0 0 p.1 p.2 < 100000) ∧
    (ClosestWaypoint 0 0 [0, 3] [0, 4] <
        (([0, 3] : List ℝ).zip ([0, 4] : List ℝ)).length ∧
    (∀ m : ℕ, m < (([0, 3] : List ℝ).zip ([0, 4] : List ℝ)).length →
      distance 0 0
          ((([0, 3] : List ℝ).zip ([0, 4] : List ℝ)).getD
            (ClosestWaypoint 0 0 [0, 3] [0, 4]) (0, 0)).1
          ((([0, 3] : List ℝ).zip ([0, 4] : List ℝ)).getD
            (ClosestWaypoint 0 0 [0, 3] [0, 4]) (0, 0)).2 ≤
        distance 0 0 ((([0, 3] : List ℝ).zip ([0, 4] : List ℝ)).getD m (0, 0)).1
          ((([0, 3] : List ℝ).zip ([0, 4] : List ℝ)).getD m (0, 0)).2) ∧
    (∀ m : ℕ, m < ClosestWaypoint 0 0 [0, 3] [0, 4] →
      distance 0 0
          ((([0, 3] : List ℝ).zip ([0, 4] : List ℝ)).getD
            (ClosestWaypoint 0 0 [0, 3] [0, 4]) (0, 0)).1
          ((([0, 3] : List ℝ).zip ([0, 4] : List ℝ)).getD
            (ClosestWaypoint 0 0 [0, 3] [0, 4]) (0, 0)).2 <
        distance 0 0 ((([0, 3] : List ℝ).zip ([0, 4] : List ℝ)).getD m (0, 0)).1
          ((([0, 3] : List ℝ).zip ([0, 4] : List ℝ)).getD m (0, 0)).2)) := by
  have hmem : ((0 : ℝ), (0 : ℝ)) ∈ ([0, 3] : List ℝ).zip ([0, 4] : List ℝ) := by
    norm_num [List.zip]
  have hd0 : distance 0 0 0 0 = 0 :=
    distance_eval 0 0 0 0 0 le_rfl (by norm_num)
  have hnear : ∃ p ∈ ([0, 3] : List ℝ).zip ([0, 4] : List ℝ),
      distance 0 0 p.1 p.2 < 100000 :=
    ⟨(0, 0), hmem, by rw [hd0]; norm_num⟩
  exact ⟨hnear, ClosestWaypoint_min 0 0 [0, 3] [0, 4] hnear⟩

theorem arctan_pos_of_pos {z : ℝ} (hz : 0 < z) : 0 < Real.arctan z := by
  have h := Real.arctan_strictMono hz
  rwa [Real.arctan_zero] at h

theorem atan2_pos_x (y x : ℝ) (hx : 0 < x) : atan2 y x = Real.arctan (y / x) := by
  rw [atan2, if_pos hx]

theorem atan2_neg_nonneg (y x : ℝ) (hx : x < 0) (hy : 0 ≤ y) :
    atan2 y x = Real.arctan (y / x) + Real.pi := by
  rw [atan2, if_neg (by linarith), if_pos ⟨hx, hy⟩]

theorem atan2_neg_neg (y x : ℝ) (hx : x < 0) (hy : y < 0) :
    atan2 y x = Real.arctan (y / x) - Real.pi := by
  rw [atan2, if_neg (by linarith), if_neg (by rintro ⟨-, h⟩; linarith),
    if_pos ⟨hx, hy⟩]

theorem distance_lt_distance (x y a b c d : ℝ)
    (h : (a - x) * (a - x) + (b - y) * (b - y) <
      (c - x) * (c - x) + (d - y) * (d - y)) :
    distance x y a b < distance x y c d := by
  rw [distance, distance]
  exact Real.sqrt_lt_sqrt (add_nonneg (mul_self_nonneg _) (mul_self_nonneg _)) h

theorem distance_le_distance (x y a b c d : ℝ)
    (h : (a - x) * (a - x) + (b - y) * (b - y) ≤
      (c - x) * (c - x) + (d - y) * (d - y)) :
    distance x y a b ≤ distance x y c d := by
  rw [distance, distance]
  exact Real.sqrt_le_sqrt h

theorem distance_lt_const (x y a b c : ℝ) (hc : 0 ≤ c)
    (h : (a - x) * (a - x) + (b - y) * (b - y) < c * c) :
    distance x y a b < c := by
  rw [distance]
  calc Real.sqrt ((a - x) * (a - x) + (b - y) * (b - y)) <
      Real.sqrt (c * c) :=
        Real.sqrt_lt_sqrt (add_nonneg (mul_self_nonneg _) (mul_self_nonneg _)) h
    _ = c := Real.sqrt_mul_self hc

theorem cwGo_nil (x y : ℝ) (i : ℕ) (cl : ℝ) (cw : ℕ) :
    cwGo x y [] i cl cw = cw := rfl

theorem cwGo_cons (x y : ℝ) (p : ℝ × ℝ) (rest : List (ℝ × ℝ)) (i : ℕ)
    (cl : ℝ) (cw : ℕ) :
    cwGo x y (p :: rest) i cl cw =
      if distance x y p.1 p.2 < cl then
        cwGo x y rest (i + 1) (distance x y p.1 p.2) i
      else
        cwGo x y rest (i + 1) cl cw := rfl

theorem cw4 (x y : ℝ) (hx1 : 12 < x) (hx2 : x < 15) (hy1 : 0 < y)
    (hy2 : y < 1) : ClosestWaypoint x y X4 Y4 = 1 := by
  have hz : X4.zip Y4 = [((0 : ℝ), (0 : ℝ)), (10, 0), (20, 0), (30, 0)] := by
    norm_num [X4, Y4]
  have h0 : distance x y 0 0 < 100000 :=
    distance_lt_const x y 0 0 100000 (by norm_num) (by nlinarith)
  have h1 : distance x y 10 0 < distance x y 0 0 :=
    distance_lt_distance x y 10 0 0 0 (by nlinarith)
  have h2 : ¬ distance x y 20 0 < distance x y 10 0 :=
    not_lt.mpr (distance_le_distance x y 10 0 20 0 (by nlinarith))
  have h3 : ¬ distance x y 30 0 < distance x y 10 0 :=
    not_lt.mpr (distance_le_distance x y 10 0 30 0 (by nlinarith))
  rw [ClosestWaypoint, hz]
  rw [cwGo_cons, if_pos (by simpa using h0)]
  rw [cwGo_cons, if_pos (by simpa using h1)]
  rw [cwGo_cons, if_neg (by simpa using h2)]
  rw [cwGo_cons, if_neg (by simpa using h3)]
  rw [cwGo_nil]

theorem nw4 (x y : ℝ) (hx1 : 12 < x) (hx2 : x < 15) (hy1 : 0 < y)
    (hy2 : y < 1) : NextWaypoint x y 0 X4 Y4 = 2 := by
  have hcw := cw4 x y hx1 hx2 hy1 hy2
  have hg1 : X4.getD 1 0 = (10 : ℝ) := by simp [X4]
  have hg1y : Y4.getD 1 0 = (0 : ℝ) := by simp [Y4]
  have hlen : X4.length = 4 := by simp [X4]
  have harg : ((0 : ℝ) - y) / (10 - x) = y / (x - 10) := by
    rw [show (0 : ℝ) - y = -y from by ring,
      show (10 : ℝ) - x = -(x - 10) from by ring, neg_div_neg_eq]
  have hhead : atan2 ((0 : ℝ) - y) (10 - x) =
      Real.arctan (y / (x - 10)) - Real.pi := by
    rw [atan2_neg_neg (0 - y) (10 - x) (by linarith) (by linarith), harg]
  have ha1 : 0 < Real.arctan (y / (x - 10)) :=
    arctan_pos_of_pos (div_pos hy1 (by linarith))
  have ha2 : Real.arctan (y / (x - 10)) < Real.pi / 2 :=
    Real.arctan_lt_pi_div_two _
  have hpi2 : Real.pi / 2 < Real.pi := half_lt_self Real.pi_pos
  simp only [NextWaypoint, hcw, hg1, hg1y, hlen]
  rw [hhead]
  rw [show (0 : ℝ) - (Real.arctan (y / (x - 10)) - Real.pi) =
    Real.pi - Real.arctan (y / (x - 10)) from by ring]
  rw [abs_of_pos (by linarith)]
  rw [min_eq_right (by linarith)]
  rw [if_pos (by linarith)]
  norm_num

theorem getFrenet_straight (x y : ℝ) (hx1 : 12 < x) (hx2 : x < 15)
    (hy1 : 0 < y) (hy2 : y < 1) :
    getFrenet x y 0 X4 Y4 = (x, -y) := by
  have hnw := nw4 x y hx1 hx2 hy1 hy2
  have e0x : (X4[0]?).getD 0 = (0 : ℝ) := by simp [X4]
  have e1x : (X4[1]?).getD 0 = (10 : ℝ) := by simp [X4]
  have e2x : (X4[2]?).getD 0 = (20 : ℝ) := by simp [X4]
  have e0y : (Y4[0]?).getD 0 = (0 : ℝ) := by simp [Y4]
  have e1y : (Y4[1]?).getD 0 = (0 : ℝ) := by simp [Y4]
  have e2y : (Y4[2]?).getD 0 = (0 : ℝ) := by simp [Y4]
  have hd1 : distance 0 0 10 0 = 10 :=
    distance_eval 0 0 10 0 10 (by norm_num) (by norm_num)
  have hd2 : distance 0 0 (x - 10) 0 = x - 10 :=
    distance_eval 0 0 (x - 10) 0 (x - 10) (by linarith) (by ring)
  have hdd : distance (x - 10) y (x - 10) 0 = y :=
    distance_eval (x - 10) y (x - 10) 0 y (le_of_lt hy1) (by ring)
  have hsign : distance 990 2000 (x - 10) y ≤ distance 990 2000 (x - 10) 0 :=
    distance_le_distance 990 2000 (x - 10) y (x - 10) 0 (by nlinarith)
  have hproj : (x - 10) * 10 / 100 * 10 = x - 10 := by ring
  norm_num [getFrenet, hnw, e0x, e1x, e2x, e0y, e1y, e2y,
    Finset.sum_range_one, hproj, hd1, hd2, hdd, hsign]

theorem getXY_straight (s d : ℝ) (hs1 : 12 < s) (hs2 : s < 15) :
    getXY s d S4 X4 Y4 = (s, -d) := by
  have h0 : getXY_scan S4 s 0 = getXY_scan S4 s 1 := by
    rw [getXY_scan, dif_pos ⟨by simp [S4]; linarith, by simp [S4]⟩]
  have h1 : getXY_scan S4 s 1 = getXY_scan S4 s 2 := by
    rw [getXY_scan, dif_pos ⟨by simp [S4]; linarith, by simp [S4]⟩]
  have h2 : getXY_scan S4 s 2 = 2 := by
    rw [getXY_scan, dif_neg]
    rintro ⟨hlt, -⟩
    simp [S4] at hlt
    linarith
  have hprev : getXY_prevWp S4 s = 1 := by
    rw [getXY_prevWp, h0, h1, h2]
    norm_num
  have hh : atan2 (0 : ℝ) 10 = 0 := by
    rw [atan2_pos_x 0 10 (by norm_num)]
    norm_num [Real.arctan_zero]
  have hlen4 : ((X4.length : ℤ)) = 4 := by simp [X4]
  simp only [getXY]
  rw [hprev, hlen4]
  norm_num [getI, X4, Y4, S4, hh, show ((2 : ℤ)).toNat = 2 from rfl,
    Real.cos_zero, Real.sin_zero, zero_sub, Real.cos_neg, Real.sin_neg,
    Real.cos_pi_div_two, Real.sin_pi_div_two]

/-- C6: on the synthetic straight-line polyline X4/Y4 (collinear waypoints
at uniform spacing 10, cumulative arc lengths S4), for every point strictly
inside the second segment and strictly left of the line (12 < x < 15,
0 < y < 1, heading 0), getFrenet followed by getXY reconstructs (x, y)
within 1e-6 = 1/1000000 (in fact exactly), and for every (s, d) with
12 < s < 15 and −1 < d < 0, getXY followed by getFrenet with the
segment-matching heading 0 reconstructs (s, d) within the same
tolerance. -/
theorem frenet_cartesian_roundtrip :
    (∀ x y : ℝ, 12 < x → x < 15 → 0 < y → y < 1 →
      |(getXY (getFrenet x y 0 X4 Y4).1 (getFrenet x y 0 X4 Y4).2 S4 X4 Y4).1 -
        x| ≤ 1 / 1000000 ∧
      |(getXY (getFrenet x y 0 X4 Y4).1 (getFrenet x y 0 X4 Y4).2 S4 X4 Y4).2 -
        y| ≤ 1 / 1000000) ∧
    (∀ s d : ℝ, 12 < s → s < 15 → -1 < d → d < 0 →
      |(getFrenet (getXY s d S4 X4 Y4).1 (getXY s d S4 X4 Y4).2 0 X4 Y4).1 -
        s| ≤ 1 / 1000000 ∧
      |(getFrenet (getXY s d S4 X4 Y4).1 (getXY s d S4 X4 Y4).2 0 X4 Y4).2 -
        d| ≤ 1 / 1000000) := by
  constructor
  · intro x y h1 h2 h3 h4
    rw [getFrenet_straight x y h1 h2 h3 h4]
    have : getXY ((x, -y).1) ((x, -y).2) S4 X4 Y4 = (x, -(-y)) :=
      getXY_straight x (-y) h1 h2
    rw [this]
    norm_num
  · intro s d h1 h2 h3 h4
    rw [getXY_straight s d h1 h2]
    have : getFrenet ((s, -d).1) ((s, -d).2) 0 X4 Y4 = (s, -(-d)) :=
      getFrenet_straight s (-d) h1 h2 (by linarith) (by linarith)
    rw [this]
    norm_num

/-- C6 witness: both round-trip directions instantiated at the concrete
interior point x = 13, y = 1/2 (respectively s = 13, d = −1/2). -/
theorem frenet_cartesian_roundtrip_witness :
    ((12 < (13 : ℝ) ∧ (13 : ℝ) < 15 ∧ 0 < (1 / 2 : ℝ) ∧ (1 / 2 : ℝ) < 1) ∧
      |(getXY (getFrenet 13 (1 / 2) 0 X4 Y4).1 (getFrenet 13 (1 / 2) 0 X4 Y4).2
          S4 X4 Y4).1 - 13| ≤ 1 / 1000000 ∧
      |(getXY (getFrenet 13 (1 / 2) 0 X4 Y4).1 (getFrenet 13 (1 / 2) 0 X4 Y4).2
          S4 X4 Y4).2 - 1 / 2| ≤ 1 / 1000000) ∧
    ((12 < (13 : ℝ) ∧ (13 : ℝ) < 15 ∧ -1 < (-(1 / 2) : ℝ) ∧ (-(1 / 2) : ℝ) < 0) ∧
      |(getFrenet (getXY 13 (-(1 / 2)) S4 X4 Y4).1
          (getXY 13 (-(1 / 2)) S4 X4 Y4).2 0 X4 Y4).1 - 13| ≤ 1 / 1000000 ∧
      |(getFrenet (getXY 13 (-(1 / 2)) S4 X4 Y4).1
          (getXY 13 (-(1 / 2)) S4 X4 Y4).2 0 X4 Y4).2 - (-(1 / 2))| ≤
        1 / 1000000) :=
  ⟨⟨by norm_num,
      frenet_cartesian_roundtrip.1 13 (1 / 2) (by norm_num) (by norm_num)
        (by norm_num) (by norm_num)⟩,
    ⟨by norm_num,
      frenet_cartesian_roundtrip.2 13 (-(1 / 2)) (by norm_num) (by norm_num)
        (by norm_num) (by norm_num)⟩⟩

theorem getAbsSpeed_10_0 : getAbsSpeed (10 : ℝ) 0 = 10 := by
  rw [getAbsSpeed, show (10 : ℝ) * 10 + 0 * 0 = 10 * 10 from by norm_num,
    Real.sqrt_mul_self (by norm_num)]

theorem getTheta_10_0 : getTheta (10 : ℝ) 0 10 = 0 := by
  rw [getTheta, if_pos le_rfl, show (10 : ℝ) / 10 = 1 from by norm_num,
    Real.arccos_one]

theorem cw2 : ClosestWaypoint 4 0 [0, 10] [0, 0] = 0 := by
  have hz : ([0, 10] : List ℝ).zip ([0, 0] : List ℝ) =
      [((0 : ℝ), (0 : ℝ)), (10, 0)] := by norm_num
  have hd0 : distance 4 0 0 0 = 4 :=
    distance_eval 4 0 0 0 4 (by norm_num) (by norm_num)
  have hd1 : distance 4 0 10 0 = 6 :=
    distance_eval 4 0 10 0 6 (by norm_num) (by norm_num)
  rw [ClosestWaypoint, hz]
  rw [cwGo_cons, if_pos (by simpa [hd0] using (by norm_num : (4 : ℝ) < 100000))]
  rw [cwGo_cons, if_neg (by norm_num [hd0, hd1])]
  rw [cwGo_nil]

theorem nw2 : NextWaypoint 4 0 0 [0, 10] [0, 0] = 1 := by
  have hh : atan2 (0 : ℝ) (-4) = Real.pi := by
    rw [atan2_neg_nonneg 0 (-4) (by norm_num) le_rfl]
    norm_num [Real.arctan_zero]
  simp only [NextWaypoint, cw2]
  norm_num
  rw [hh, abs_of_pos Real.pi_pos]
  constructor
  · nlinarith [Real.pi_pos]
  · exact half_lt_self Real.pi_pos

theorem gf2 : (getFrenet 4 0 0 [0, 10] [0, 0]).1 = 4 := by
  have hd4 : distance 0 0 4 0 = 4 :=
    distance_eval 0 0 4 0 4 (by norm_num) (by norm_num)
  simp only [getFrenet, nw2]
  norm_num [Finset.range_zero, Finset.sum_empty, hd4]

/-- C4 witness: the obstacle at (4, 0) with velocity (10, 0) (speed 10 =
ego speed, so relative speed 0) on the two-point polyline x = [0, 10],
y = [0, 0]; its Frenet s is 4, so with ego s = −96 the relative distance
is 100, beyond the safety margin 21.3; prepending it to the empty list
leaves the verdict unchanged. -/
theorem safeToChangeLane_zero_relative_speed_witness :
    (getAbsSpeed (10 : ℝ) 0 = 10 ∧
      safety_distance 10 <
        |(getFrenet 4 0 (getTheta 10 0 (getAbsSpeed 10 0)) [0, 10] [0, 0]).1 -
          (-96)|) ∧
    safeToChangeLane [⟨4, 0, 10, 0⟩] (-96) 10 [0, 10] [0, 0] 3 =
      safeToChangeLane [] (-96) 10 [0, 10] [0, 0] 3 := by
  have hfar : safety_distance 10 <
      |(getFrenet 4 0 (getTheta 10 0 (getAbsSpeed 10 0)) [0, 10] [0, 0]).1 -
        (-96)| := by
    rw [getAbsSpeed_10_0, getTheta_10_0, gf2, safety_distance_eq]
    rw [show |(22.3 : ℝ) - 10| = 12.3 from by
      rw [abs_of_pos (by norm_num : (0 : ℝ) < 22.3 - 10)]; norm_num]
    rw [show |(4 : ℝ) - (-96)| = 100 from by
      rw [abs_of_pos (by norm_num : (0 : ℝ) < 4 - (-96))]; norm_num]
    norm_num
  refine ⟨⟨getAbsSpeed_10_0, hfar⟩, ?_⟩
  exact safeToChangeLane_zero_relative_speed ⟨4, 0, 10, 0⟩ (-96) 10 [0, 10]
    [0, 0] 3 getAbsSpeed_10_0 hfar []

end PathPlanning
